import Mathlib

/-!
# Verification of the `procedural_fitness` pipeline

Shallow embedding of `src/main.rs`. The program draws integer samples from
four generator strategies, derives a running "fitness" sequence, renders both
series to a chart and writes a PNG per strategy.

Modelling conventions:
* Rust `u64` sample values are modelled as `Nat`, Rust `i64` values as `Int`,
  with the `as i64` casts modelled as `Int.ofNat`; the driver uses
  `range = count = 10000`, so all arithmetic stays far below the 64-bit
  boundaries and overflow wrapping never triggers.
* Rust `i64` division (which truncates toward zero) is `Int.tdiv`, and
  `i64::abs` is `|·|` on `Int`.
* Fallible Rust expressions are `Except`/`Option`; a Rust `panic!`
  (e.g. `Option::unwrap` on `None`) is a distinct outcome constructor,
  kept separate from an `Err` that the caller receives as a value.
* The unbounded `while` loop in `sequence_rng_plot` is embedded with an
  explicit fuel parameter; `none` means the fuel ran out, and divergence of
  the real loop is expressed as `none` for *every* fuel.
-/

namespace ProceduralFitness

/-! ## Fitness transformer (`plot`, src/main.rs lines 16-53)

The fitness half of `plot` reads:
```rust
let max_y = points.iter().max().unwrap();
let mut current_fitness: i64 = *max_y as i64 / 2;
...
let mut last_val = points[0] as i64;
points.iter().map(|val| {
    let val = *val as i64;
    if val != last_val {
        current_fitness += (val - last_val) / (val - last_val).abs()
    };
    last_val = val;
    current_fitness
}).collect::<Vec<_>>()
```
-/

/-- Outcome of running the fitness half of `plot` on a sample vector:
either it produces the fitness sequence, or it returns an `Err` value to
the caller, or it panics (as `unwrap` on `None` does). -/
inductive FitOutcome where
  | ok (fitness : List Int)
  | errored (msg : String)
  | panicked
deriving DecidableEq

/-- Returns `true` exactly when the outcome is an explicit error value
returned to the caller (as opposed to a success or a panic). -/
def FitOutcome.isExplicitError : FitOutcome → Bool
  | .errored _ => true
  | _ => false

/-- The closure body of the fitness `map` in `plot`, iterated over the
sample list: state is `lastVal` (Rust `last_val`) and `cf` (Rust
`current_fitness`); each step optionally adds the sign
`(val - last_val) / (val - last_val).abs()` and emits the running value. -/
def fitnessFold : List Nat → Int → Int → List Int
  | [], _, _ => []
  | v :: rest, lastVal, cf =>
    let val : Int := (v : Int)
    let cf' : Int := if val ≠ lastVal then cf + Int.tdiv (val - lastVal) |val - lastVal| else cf
    cf' :: fitnessFold rest val cf'

/-- The fitness half of `plot` run on a sample vector.  `points.iter().max()`
is `List.max?` and its `.unwrap()` panics on `none`; `points[0]` panics on an
empty vector; otherwise the fold runs with `current_fitness = max_y as i64 / 2`
and `last_val = points[0] as i64`. -/
def plotFitnessRun (points : List Nat) : FitOutcome :=
  match points.max?, points with
  | none, _ => .panicked
  | some _, [] => .panicked
  | some maxY, p0 :: rest =>
    .ok (fitnessFold (p0 :: rest) (p0 : Int) (Int.tdiv (maxY : Int) 2))

/-- Variant of `fitnessFold` that makes the division-by-zero panic branch of
the Rust `/` operator explicit: whenever the divisor `(val - last_val).abs()`
is zero the whole computation aborts with `none`. -/
def fitnessFoldChecked : List Nat → Int → Int → Option (List Int)
  | [], _, _ => some []
  | v :: rest, lastVal, cf =>
    let val : Int := (v : Int)
    if val ≠ lastVal then
      let d : Int := |val - lastVal|
      if d = 0 then none
      else
        let cf' : Int := cf + Int.tdiv (val - lastVal) d
        (fitnessFoldChecked rest val cf').map (cf' :: ·)
    else
      (fitnessFoldChecked rest val cf).map (cf :: ·)

/-- Modelled from the spec's words (§3, §8): the running value starts at
`max(samples) / 2`, the previous value is seeded with the first sample, and
each sample moves the running value by `+1` if it exceeds the previous
sample, by `-1` if it is below it, and not at all on a tie. -/
def specWalk : List Nat → Nat → Int → List Int
  | [], _, _ => []
  | v :: rest, prev, cf =>
    let cf' : Int := if prev < v then cf + 1 else if v < prev then cf - 1 else cf
    cf' :: specWalk rest v cf'

/-- Modelled from the spec's words: the whole fitness transform as §3
describes it, on a non-empty sample sequence. -/
def specFitness : List Nat → List Int
  | [] => []
  | p0 :: rest => specWalk (p0 :: rest) p0 ((((p0 :: rest).foldl max 0) / 2 : Nat) : Int)

/-! ### Helper lemmas about the fitness transform -/

/-- The exact sign division the Rust code performs: for nonzero `a`,
`a / a.abs()` is `1` on positives and `-1` on negatives. -/
lemma tdiv_abs_sign (a : Int) (h : a ≠ 0) :
    Int.tdiv a |a| = if 0 < a then 1 else -1 := by
  rcases lt_trichotomy a 0 with hneg | hzero | hpos
  · rw [abs_of_neg hneg, Int.tdiv_neg, Int.tdiv_self h, if_neg (by omega)]
  · exact absurd hzero h
  · rw [abs_of_pos hpos, Int.tdiv_self h, if_pos hpos]

/-- The code's fold agrees with the spec's `+1 / -1 / unchanged` walk. -/
lemma fitnessFold_eq_specWalk :
    ∀ (points : List Nat) (prev : Nat) (cf : Int),
      fitnessFold points (prev : Int) cf = specWalk points prev cf := by
  intro points
  induction points with
  | nil => intro prev cf; rfl
  | cons v rest ih =>
    intro prev cf
    show (if ((v : Int) ≠ (prev : Int)) then
            cf + Int.tdiv ((v : Int) - (prev : Int)) |(v : Int) - (prev : Int)|
          else cf) :: fitnessFold rest (v : Int) _ =
         (if prev < v then cf + 1 else if v < prev then cf - 1 else cf) :: specWalk rest v _
    have hstep : (if ((v : Int) ≠ (prev : Int)) then
        cf + Int.tdiv ((v : Int) - (prev : Int)) |(v : Int) - (prev : Int)|
      else cf) = (if prev < v then cf + 1 else if v < prev then cf - 1 else cf) := by
      rcases lt_trichotomy prev v with hlt | heq | hgt
      · have hne : ((v : Int) ≠ (prev : Int)) := by
          simpa [Int.natCast_inj] using Nat.ne_of_gt hlt
        have hpos : (0 : Int) < (v : Int) - (prev : Int) := by
          rw [sub_pos]; exact_mod_cast hlt
        rw [if_pos hne, tdiv_abs_sign _ (sub_ne_zero_of_ne hne), if_pos hpos, if_pos hlt]
      · subst heq
        simp
      · have hne : ((v : Int) ≠ (prev : Int)) := by
          simpa [Int.natCast_inj] using Nat.ne_of_lt hgt
        have hneg : ¬ ((0 : Int) < (v : Int) - (prev : Int)) := by
          rw [not_lt, sub_nonpos]; exact_mod_cast Nat.le_of_lt hgt
        rw [if_pos hne, tdiv_abs_sign _ (sub_ne_zero_of_ne hne), if_neg hneg,
          if_neg (by omega : ¬ prev < v), if_pos hgt]
        ring
    rw [hstep, ih]

/-- The fold emits one output element per input element. -/
lemma fitnessFold_length :
    ∀ (points : List Nat) (lastVal cf : Int),
      (fitnessFold points lastVal cf).length = points.length := by
  intro points
  induction points with
  | nil => intro lastVal cf; rfl
  | cons v rest ih =>
    intro lastVal cf
    show (_ :: fitnessFold rest (v : Int) _).length = rest.length + 1
    rw [List.length_cons, ih]

/-- On a non-empty sample list, `plotFitnessRun` succeeds and runs the fold
seeded exactly as the Rust code does. -/
lemma plotFitnessRun_cons (p0 : Nat) (rest : List Nat) :
    plotFitnessRun (p0 :: rest) =
      .ok (fitnessFold (p0 :: rest) (p0 : Int)
        (Int.tdiv ((rest.foldl max p0 : Nat) : Int) 2)) := rfl

/-- The maximum the code computes (`iter().max()` over a non-empty vector)
coincides with the spec-side `max(samples)` (fold of `max` from `0`). -/
lemma foldl_max_zero (p0 : Nat) (rest : List Nat) :
    (p0 :: rest).foldl max 0 = rest.foldl max p0 := by
  show rest.foldl max (max 0 p0) = rest.foldl max p0
  rw [Nat.zero_max]

/-! ## Cyclic generator (`sequence_rng_plot`, src/main.rs lines 88-101)

```rust
let base_vec = (0..range).collect_vec();
let mut point_vec: Vec<u64> = Vec::new();
while point_vec.len() < point_count as usize {
    point_vec.extend(base_vec.iter());
}
```
-/

/-- The `while point_vec.len() < point_count` loop of `sequence_rng_plot`,
with an explicit fuel bound: one unit of fuel per evaluation of the loop
guard.  `none` means the fuel ran out before the guard failed. -/
def cyclicLoop (base : List Nat) (count : Nat) : Nat → List Nat → Option (List Nat)
  | 0, _ => none
  | fuel + 1, acc =>
    if acc.length < count then cyclicLoop base count fuel (acc ++ base) else some acc

/-- The sample vector `sequence_rng_plot` builds: the loop above started from
the empty vector with `base_vec = (0..range).collect_vec()`. -/
def cyclicSamples (range count fuel : Nat) : Option (List Nat) :=
  cyclicLoop (List.range range) count fuel []

/-- Concatenation of `k` copies of `l`, matching `k` executions of
`point_vec.extend(base_vec.iter())`. -/
def repeatList (l : List Nat) : Nat → List Nat
  | 0 => []
  | k + 1 => repeatList l k ++ l

/-- Number of loop iterations the code performs: `⌈count / range⌉`. -/
def ceilIter (range count : Nat) : Nat := (count + range - 1) / range

/-- The vector the cyclic generator actually produces for `range > 0`:
the block `0, …, range-1` repeated `⌈count / range⌉` times. -/
def cyclicResult (range count : Nat) : List Nat :=
  repeatList (List.range range) (ceilIter range count)

/-- The real (fuel-free) loop diverges on these arguments: no amount of fuel
makes the embedded loop terminate. -/
def CyclicDiverges (range count : Nat) : Prop :=
  ∀ fuel, cyclicSamples range count fuel = none

/-! ### Helper lemmas about the cyclic generator -/

lemma repeatList_length (l : List Nat) :
    ∀ k, (repeatList l k).length = k * l.length := by
  intro k
  induction k with
  | zero => rw [Nat.zero_mul]; rfl
  | succ k ih =>
    show (repeatList l k ++ l).length = (k + 1) * l.length
    rw [List.length_append, ih, Nat.succ_mul]

lemma mem_repeatList {l : List Nat} :
    ∀ k v, v ∈ repeatList l k → v ∈ l := by
  intro k
  induction k with
  | zero => intro v hv; cases hv
  | succ k ih =>
    intro v hv
    rcases List.mem_append.mp hv with h | h
    · exact ih v h
    · exact h

/-- Completing `j` whole blocks is still short of `count` samples exactly
when `j` is below the total iteration count `⌈count / range⌉`. -/
lemma lt_ceilIter_iff (range count j : Nat) (h0 : 0 < range) (h1 : 1 ≤ count) :
    j < ceilIter range count ↔ j * range < count := by
  unfold ceilIter
  rw [Nat.lt_iff_add_one_le, Nat.le_div_iff_mul_le h0, add_one_mul]
  generalize j * range = t
  omega

/-- Main loop characterisation: starting from `j` completed blocks with
enough fuel left, the loop returns the block repeated `⌈count / range⌉`
times. -/
lemma cyclicLoop_run (range count : Nat) (h0 : 0 < range) (h1 : 1 ≤ count) :
    ∀ fuel j, ceilIter range count < j + fuel → j ≤ ceilIter range count →
      cyclicLoop (List.range range) count fuel (repeatList (List.range range) j) =
        some (cyclicResult range count) := by
  intro fuel
  induction fuel with
  | zero => intro j hf hj; omega
  | succ fuel ih =>
    intro j hf hj
    show (if (repeatList (List.range range) j).length < count then
            cyclicLoop (List.range range) count fuel
              (repeatList (List.range range) j ++ List.range range)
          else some (repeatList (List.range range) j)) = some (cyclicResult range count)
    by_cases hlt : (repeatList (List.range range) j).length < count
    · have hjr : j * range < count := by
        rw [repeatList_length, List.length_range] at hlt
        exact hlt
      have hjk : j < ceilIter range count := (lt_ceilIter_iff range count j h0 h1).mpr hjr
      rw [if_pos hlt]
      have hrw : repeatList (List.range range) j ++ List.range range =
          repeatList (List.range range) (j + 1) := rfl
      rw [hrw]
      exact ih (j + 1) (by omega) (by omega)
    · have hjr : ¬ j * range < count := by
        rw [repeatList_length, List.length_range] at hlt
        exact hlt
      have hjk : ¬ j < ceilIter range count :=
        fun h => hjr ((lt_ceilIter_iff range count j h0 h1).mp h)
      have hje : j = ceilIter range count := by omega
      rw [if_neg hlt, hje]
      rfl

/-- Any `some` outcome of the loop only contains elements of the starting
accumulator or of the base block. -/
lemma cyclicLoop_mem (base : List Nat) (count : Nat) :
    ∀ fuel acc l, cyclicLoop base count fuel acc = some l →
      ∀ v ∈ l, v ∈ acc ∨ v ∈ base := by
  intro fuel
  induction fuel with
  | zero => intro acc l h; cases h
  | succ fuel ih =>
    intro acc l h v hv
    by_cases hlt : acc.length < count
    · have hrec : cyclicLoop base count fuel (acc ++ base) = some l := by
        rw [show cyclicLoop base count (fuel + 1) acc =
          (if acc.length < count then cyclicLoop base count fuel (acc ++ base)
            else some acc) from rfl, if_pos hlt] at h
        exact h
      rcases ih (acc ++ base) l hrec v hv with hmem | hmem
      · rcases List.mem_append.mp hmem with h2 | h2
        · exact Or.inl h2
        · exact Or.inr h2
      · exact Or.inr hmem
    · have hacc : acc = l := by
        rw [show cyclicLoop base count (fuel + 1) acc =
          (if acc.length < count then cyclicLoop base count fuel (acc ++ base)
            else some acc) from rfl, if_neg hlt] at h
        exact Option.some.inj h
      exact Or.inl (hacc ▸ hv)

/-- With an empty base block the loop makes no progress: it runs out of any
finite amount of fuel. -/
lemma cyclicLoop_nil_none (count : Nat) :
    ∀ fuel acc, acc.length < count → cyclicLoop [] count fuel acc = none := by
  intro fuel
  induction fuel with
  | zero => intro acc h; rfl
  | succ fuel ih =>
    intro acc h
    show (if acc.length < count then cyclicLoop [] count fuel (acc ++ [])
          else some acc) = none
    rw [if_pos h, List.append_nil]
    exact ih acc h

/-- The repeated block is the enumeration `i ↦ i % range`. -/
lemma repeatList_range_eq (range : Nat) :
    ∀ k, repeatList (List.range range) k =
      (List.range (k * range)).map (· % range) := by
  intro k
  induction k with
  | zero => rw [Nat.zero_mul]; rfl
  | succ k ih =>
    show repeatList (List.range range) k ++ List.range range = _
    rw [Nat.succ_mul, List.range_add, List.map_append, ← ih, List.map_map]
    have hmap : List.map ((· % range) ∘ (k * range + ·)) (List.range range) =
        List.map id (List.range range) := by
      refine List.map_congr_left ?_
      intro x hx
      have hxlt : x < range := List.mem_range.mp hx
      show (k * range + x) % range = x
      rw [Nat.add_comm, Nat.add_mul_mod_self_right, Nat.mod_eq_of_lt hxlt]
    rw [hmap, List.map_id]

/-! ## Random generators
(`standard_rng_plot`, `xorshift_rng_plot`, `xoshiro256plusplus_rng_plot`,
src/main.rs lines 103-144)

Each of the three does `(0..point_count).map(|_| rng.gen_range(0..range))`,
differing only in the `rng` object (`thread_rng()`, `XorShiftRng` or
`Xoshiro256PlusPlus`, the latter two seeded from entropy).  The underlying
random stream is abstracted as a function `Nat → Nat` giving the raw draw at
each step. -/

/-- Model of the external `rand` library contract for a nonempty range:
`rng.gen_range(0..range)` reduces an arbitrary raw draw into `[0, range)`.
(For `range = 0` the library panics instead; see `genRangeChecked`.) -/
def genRange (range raw : Nat) : Nat := raw % range

/-- Model of `rng.gen_range(0..range)` with its panic branch explicit:
on the empty range `0..0` the library panics (`none`); otherwise it yields a
value in `[0, range)`. -/
def genRangeChecked (range raw : Nat) : Option Nat :=
  if range = 0 then none else some (raw % range)

/-- Embedding of `(0..point_count).map(|_| rng.gen_range(0..range))`
with the random stream made explicit. -/
def drawSamples (stream : Nat → Nat) (range count : Nat) : List Nat :=
  (List.range count).map fun i => genRange range (stream i)

/-- Sample vector of `standard_rng_plot` (stream = `thread_rng()`). -/
def standardSamples (stream : Nat → Nat) (range count : Nat) : List Nat :=
  drawSamples stream range count

/-- Sample vector of `xorshift_rng_plot` (stream = entropy-seeded
`XorShiftRng`). -/
def xorshiftSamples (stream : Nat → Nat) (range count : Nat) : List Nat :=
  drawSamples stream range count

/-- Sample vector of `xoshiro256plusplus_rng_plot` (stream = entropy-seeded
`Xoshiro256PlusPlus`). -/
def xoshiroSamples (stream : Nat → Nat) (range count : Nat) : List Nat :=
  drawSamples stream range count

/-! ## Image-writing stage (`plot`, src/main.rs lines 71-85)

```rust
let mut file = std::fs::File::create(png_path)?;
file.write_all(&svg_to_png(&Page::single(&v)
    .dimensions(1920, 1080)
    .to_svg()
    .unwrap()
    .to_string()))
.unwrap())?;
```
`File::create` and `write_all` failures are propagated with `?`; `to_svg()`
and `svg_to_png(...)` failures hit `.unwrap()` and panic. -/

/-- Outcome of the image-writing stage: success, an error value returned to
the caller (the two `?` operators), or a panic (the two `.unwrap()` calls). -/
inductive WriteOutcome where
  | ok
  | errored (msg : String)
  | panicked
deriving DecidableEq

/-- Returns `true` exactly when the outcome is an explicit error value
returned to the caller. -/
def WriteOutcome.isExplicitError : WriteOutcome → Bool
  | .errored _ => true
  | _ => false

/-- The image-writing stage, parametrised over the results of its four
external calls: `File::create` (`createRes`), `Page::to_svg` (`svgRes`),
`svg_to_png` rasterization (`rasterRes`) and `write_all` (`writeRes`).
The control flow mirrors the source line: create first with `?`, then the
two unwraps while building the byte buffer, then the final write with `?`. -/
def writeImage (createRes : Except String Unit) (svgRes : Except String String)
    (rasterRes : String → Except String (List Nat))
    (writeRes : List Nat → Except String Unit) : WriteOutcome :=
  match createRes with
  | .error e => .errored e
  | .ok _ =>
    match svgRes with
    | .error _ => .panicked
    | .ok svg =>
      match rasterRes svg with
      | .error _ => .panicked
      | .ok png =>
        match writeRes png with
        | .error e => .errored e
        | .ok _ => .ok

/-! ## Driver (`run`, src/main.rs lines 146-161)

```rust
if let Some(base_dirs) = BaseDirs::new() {
    let base_path = PathBuf::from(base_dirs.home_dir());
    ...
    sequence_rng_plot(&base_path, range, point_count)?;
    standard_rng_plot(&base_path, range, point_count)?;
    xorshift_rng_plot(&base_path, range, point_count)?;
    xoshiro256plusplus_rng_plot(&base_path, range, point_count)?;
} else {
    return Err(anyhow!("Unable to determine base dirs"));
}
```
-/

/-- The four pipeline invocations the driver can make, in source order. -/
inductive PipelineCall where
  | sequence
  | standard
  | xorshift
  | xoshiro
deriving DecidableEq

/-- The driver, parametrised over the home-directory resolution
(`BaseDirs::new()`, `none` when the home directory is unresolvable) and the
behaviour of the four pipeline functions.  Returns the driver's result
together with the list of pipeline invocations actually performed (each
invocation is what generates samples and writes a file). -/
def runDriver (baseDirs : Option String)
    (pipe : PipelineCall → Except String Unit) :
    Except String Unit × List PipelineCall :=
  match baseDirs with
  | none => (.error "Unable to determine base dirs", [])
  | some _ =>
    match pipe .sequence with
    | .error e => (.error e, [.sequence])
    | .ok _ =>
      match pipe .standard with
      | .error e => (.error e, [.sequence, .standard])
      | .ok _ =>
        match pipe .xorshift with
        | .error e => (.error e, [.sequence, .standard, .xorshift])
        | .ok _ =>
          match pipe .xoshiro with
          | .error e => (.error e, [.sequence, .standard, .xorshift, .xoshiro])
          | .ok _ => (.ok (), [.sequence, .standard, .xorshift, .xoshiro])

/-! ## Claim theorems -/

/-- C1: for every non-empty sample sequence the fitness transform succeeds,
its output has the same length as the input, and it equals the sequence the
spec describes (running value seeded with `max(samples) / 2`, previous value
seeded with `input[0]`, then `+1` / `-1` / unchanged per comparison, so
`output[0] = max(samples) / 2`); in particular on `[5, 5, 2, 8]` it yields
`[4, 4, 3, 4]`. -/
theorem plot_fitness_correct (points : List Nat) (h : points ≠ []) :
    (∃ l, plotFitnessRun points = FitOutcome.ok l ∧ l.length = points.length ∧
      l = specFitness points) ∧
    plotFitnessRun [5, 5, 2, 8] = FitOutcome.ok [4, 4, 3, 4] := by
  constructor
  · obtain ⟨p0, rest, rfl⟩ := List.exists_cons_of_ne_nil h
    refine ⟨_, plotFitnessRun_cons p0 rest, fitnessFold_length _ _ _, ?_⟩
    rw [fitnessFold_eq_specWalk]
    show specWalk (p0 :: rest) p0 (Int.tdiv ((rest.foldl max p0 : Nat) : Int) 2) =
      specWalk (p0 :: rest) p0 ((((p0 :: rest).foldl max 0) / 2 : Nat) : Int)
    rw [foldl_max_zero]
    rfl
  · decide

/-- Witness for C1 at the spec's end-to-end example `[5, 5, 2, 8]`. -/
theorem plot_fitness_correct_witness :
    ([5, 5, 2, 8] : List Nat) ≠ [] ∧
    ((∃ l, plotFitnessRun [5, 5, 2, 8] = FitOutcome.ok l ∧
        l.length = ([5, 5, 2, 8] : List Nat).length ∧ l = specFitness [5, 5, 2, 8]) ∧
      plotFitnessRun [5, 5, 2, 8] = FitOutcome.ok [4, 4, 3, 4]) :=
  ⟨by decide, plot_fitness_correct [5, 5, 2, 8] (by decide)⟩

/-- C4 counterexample: on the empty sample sequence the fitness transform
panics (the `unwrap` on `max` of an empty vector); it does not return an
explicit error value as the claim states. -/
theorem plot_empty_panics_cex :
    plotFitnessRun [] = FitOutcome.panicked ∧
    FitOutcome.isExplicitError (plotFitnessRun []) = false := by decide

/-- C4 amended: applied to an empty sample sequence the fitness transform
panics rather than returning an explicit error value; non-emptiness is its
only precondition — on any non-empty input it succeeds. -/
theorem plot_empty_panics (points : List Nat) :
    (points = [] → plotFitnessRun points = FitOutcome.panicked) ∧
    (points ≠ [] → ∃ l, plotFitnessRun points = FitOutcome.ok l) := by
  constructor
  · rintro rfl; rfl
  · intro h
    obtain ⟨p0, rest, rfl⟩ := List.exists_cons_of_ne_nil h
    exact ⟨_, plotFitnessRun_cons p0 rest⟩

/-- Witness for the amended C4 on the empty input and on `[3]`. -/
theorem plot_empty_panics_witness :
    plotFitnessRun [] = FitOutcome.panicked ∧
    (∃ l, plotFitnessRun [3] = FitOutcome.ok l) :=
  ⟨(plot_empty_panics []).1 rfl, (plot_empty_panics [3]).2 (by decide)⟩

/-- C10: the signed division in the fitness step is guarded by
`val != last_val`, so its divisor is never zero: the division-checked run of
the fold never takes the division-by-zero branch and agrees with the
unchecked fold, for every input sequence and every starting state. -/
theorem fitness_division_safe (points : List Nat) (lastVal cf : Int) :
    fitnessFoldChecked points lastVal cf = some (fitnessFold points lastVal cf) := by
  induction points generalizing lastVal cf with
  | nil => rfl
  | cons v rest ih =>
    simp only [fitnessFoldChecked, fitnessFold]
    by_cases hne : ((v : Int) ≠ lastVal)
    · have hsub : ((v : Int) - lastVal) ≠ 0 := sub_ne_zero_of_ne hne
      have habs : ¬ (|(v : Int) - lastVal| = 0) := abs_ne_zero.mpr hsub
      rw [if_pos hne, if_pos hne, if_neg habs, ih]
      rfl
    · rw [if_neg hne, if_neg hne, ih]
      rfl

/-- C2 counterexample: with `range = 0` and `count = 1` the cyclic
generator's fill loop never terminates — no amount of fuel makes the
embedded loop finish — so the pipeline does not fail with an explicit error
as the claim states: it loops forever. -/
theorem cyclic_range_zero_cex : CyclicDiverges 0 1 := by
  intro fuel
  show cyclicLoop (List.range 0) 1 fuel [] = none
  rw [List.range_zero]
  exact cyclicLoop_nil_none 1 fuel [] (by decide)

/-- C2 amended: calling the pipeline with `range = 0` and `count ≥ 1` does
not produce an explicit error — the cyclic generator loops forever (its fill
loop makes no progress on an empty base block), and the random generators
panic inside `gen_range` on the empty range `0..0`. -/
theorem cyclic_range_zero_diverges (count : Nat) (h : 1 ≤ count) :
    CyclicDiverges 0 count ∧ ∀ raw, genRangeChecked 0 raw = none := by
  refine ⟨?_, fun raw => rfl⟩
  intro fuel
  show cyclicLoop (List.range 0) count fuel [] = none
  rw [List.range_zero]
  exact cyclicLoop_nil_none count fuel [] (by simpa using h)

/-- Witness for the amended C2 at `count = 2`. -/
theorem cyclic_range_zero_diverges_witness :
    1 ≤ 2 ∧ (CyclicDiverges 0 2 ∧ ∀ raw, genRangeChecked 0 raw = none) :=
  ⟨by decide, cyclic_range_zero_diverges 2 (by decide)⟩

/-- C3 counterexample: with `range = 3` and `count = 4` the cyclic generator
produces six elements, not the claimed `count = 4`: the fill loop extends by
whole copies of `0..range`, it does not truncate. -/
theorem cyclic_not_truncated_cex :
    cyclicSamples 3 4 5 = some [0, 1, 2, 0, 1, 2] ∧
    ([0, 1, 2, 0, 1, 2] : List Nat).length ≠ 4 := by decide

/-- C3 amended: for `range > 0` and `count ≥ 1` the cyclic generator
terminates and produces the repeating enumeration `0, 1, …, range-1, 0, …`
repeated `⌈count / range⌉` whole times — length `range * ⌈count / range⌉`,
which is not truncated to `count` elements. -/
theorem cyclic_output_characterization (range count fuel : Nat)
    (h0 : 0 < range) (h1 : 1 ≤ count) (hf : ceilIter range count < fuel) :
    cyclicSamples range count fuel = some (cyclicResult range count) ∧
    (cyclicResult range count).length = range * ceilIter range count := by
  constructor
  · exact cyclicLoop_run range count h0 h1 fuel 0 (by omega) (by omega)
  · rw [cyclicResult, repeatList_length, List.length_range, Nat.mul_comm]

/-- Witness for the amended C3 at `range = 3`, `count = 4`, `fuel = 5`. -/
theorem cyclic_output_characterization_witness :
    0 < 3 ∧ 1 ≤ 4 ∧ ceilIter 3 4 < 5 ∧
    (cyclicSamples 3 4 5 = some (cyclicResult 3 4) ∧
      (cyclicResult 3 4).length = 3 * ceilIter 3 4) :=
  ⟨by decide, by decide, by decide,
    cyclic_output_characterization 3 4 5 (by decide) (by decide) (by decide)⟩

/-- C6: for `range > 0` and `count ≥ 1` the cyclic generator terminates on
its output, and the element of the produced sequence at every index `i`
equals `i % range`. -/
theorem cyclic_index_mod_range (range count fuel i : Nat)
    (h0 : 0 < range) (h1 : 1 ≤ count) (hf : ceilIter range count < fuel)
    (hi : i < range * ceilIter range count) :
    cyclicSamples range count fuel = some (cyclicResult range count) ∧
    (cyclicResult range count)[i]? = some (i % range) := by
  constructor
  · exact cyclicLoop_run range count h0 h1 fuel 0 (by omega) (by omega)
  · have hi2 : i < ceilIter range count * range := by rw [Nat.mul_comm] at hi; exact hi
    rw [cyclicResult, repeatList_range_eq]
    simp [List.getElem?_map, List.getElem?_range, hi2]

/-- Witness for C6 at `range = 2`, `count = 3`, index `i = 2`. -/
theorem cyclic_index_mod_range_witness :
    0 < 2 ∧ 1 ≤ 3 ∧ ceilIter 2 3 < 4 ∧ 2 < 2 * ceilIter 2 3 ∧
    (cyclicSamples 2 3 4 = some (cyclicResult 2 3) ∧
      (cyclicResult 2 3)[2]? = some (2 % 2)) :=
  ⟨by decide, by decide, by decide, by decide,
    cyclic_index_mod_range 2 3 4 2 (by decide) (by decide) (by decide) (by decide)⟩

/-- C9: for `range > 0` and `count ≥ 1` the cyclic generator's output length
is `range * ⌈count / range⌉`; it is at least `count`, strictly exceeds
`count` whenever `range` does not divide `count`, and is the smallest
multiple of `range` reaching `count`. -/
theorem cyclic_length_formula (range count fuel : Nat)
    (h0 : 0 < range) (h1 : 1 ≤ count) (hf : ceilIter range count < fuel) :
    ∀ l, cyclicSamples range count fuel = some l →
      l.length = range * ceilIter range count ∧
      count ≤ l.length ∧
      (¬ range ∣ count → count < l.length) ∧
      (∀ m, count ≤ range * m → ceilIter range count ≤ m) := by
  intro l hl
  have hrun : cyclicSamples range count fuel = some (cyclicResult range count) :=
    cyclicLoop_run range count h0 h1 fuel 0 (by omega) (by omega)
  rw [hl] at hrun
  have heq : l = cyclicResult range count := Option.some.inj hrun
  subst heq
  have hkey : ∀ j, j < ceilIter range count ↔ j * range < count :=
    fun j => lt_ceilIter_iff range count j h0 h1
  have hlen : (cyclicResult range count).length = range * ceilIter range count := by
    rw [cyclicResult, repeatList_length, List.length_range, Nat.mul_comm]
  have hnotlt : ¬ (ceilIter range count * range < count) :=
    fun hc => absurd ((hkey _).mpr hc) (lt_irrefl _)
  have hge : count ≤ range * ceilIter range count := by
    rw [Nat.mul_comm]; exact Nat.le_of_not_lt hnotlt
  refine ⟨hlen, by rw [hlen]; exact hge, ?_, ?_⟩
  · intro hdvd
    have hne : count ≠ range * ceilIter range count := fun he => hdvd ⟨_, he⟩
    rw [hlen]
    exact Nat.lt_of_le_of_ne hge hne
  · intro m hm
    by_contra hcon
    have hmk : m < ceilIter range count := by omega
    have hmlt : m * range < count := (hkey m).mp hmk
    rw [Nat.mul_comm] at hm
    exact absurd (Nat.lt_of_le_of_lt hm hmlt) (lt_irrefl _)

/-- Witness for C9 at `range = 3`, `count = 4`, `fuel = 5`. -/
theorem cyclic_length_formula_witness :
    0 < 3 ∧ 1 ≤ 4 ∧ ceilIter 3 4 < 5 ∧ cyclicSamples 3 4 5 = some [0, 1, 2, 0, 1, 2] ∧
    (([0, 1, 2, 0, 1, 2] : List Nat).length = 3 * ceilIter 3 4 ∧
      4 ≤ ([0, 1, 2, 0, 1, 2] : List Nat).length ∧
      (¬ (3 ∣ 4) → 4 < ([0, 1, 2, 0, 1, 2] : List Nat).length) ∧
      (∀ m, 4 ≤ 3 * m → ceilIter 3 4 ≤ m)) :=
  ⟨by decide, by decide, by decide, by decide,
    cyclic_length_formula 3 4 5 (by decide) (by decide) (by decide)
      [0, 1, 2, 0, 1, 2] (by decide)⟩

/-- C7: for every generator variant (cyclic, default-library `thread_rng`,
xorshift, xoshiro256++) and every `range > 0`, every produced sample lies in
`[0, range)`, regardless of the underlying random stream. -/
theorem samples_in_range (range : Nat) (h : 0 < range) :
    (∀ count fuel l, cyclicSamples range count fuel = some l → ∀ v ∈ l, v < range) ∧
    (∀ stream count, ∀ v ∈ standardSamples stream range count, v < range) ∧
    (∀ stream count, ∀ v ∈ xorshiftSamples stream range count, v < range) ∧
    (∀ stream count, ∀ v ∈ xoshiroSamples stream range count, v < range) := by
  have hdraw : ∀ (stream : Nat → Nat) (count : Nat),
      ∀ v ∈ drawSamples stream range count, v < range := by
    intro stream count v hv
    rcases List.mem_map.mp hv with ⟨i, _, rfl⟩
    exact Nat.mod_lt _ h
  refine ⟨?_, hdraw, hdraw, hdraw⟩
  intro count fuel l hl v hv
  rcases cyclicLoop_mem (List.range range) count fuel [] l hl v hv with hmem | hmem
  · cases hmem
  · exact List.mem_range.mp hmem

/-- Witness for C7 at `range = 5`. -/
theorem samples_in_range_witness :
    0 < 5 ∧
    ((∀ count fuel l, cyclicSamples 5 count fuel = some l → ∀ v ∈ l, v < 5) ∧
      (∀ stream count, ∀ v ∈ standardSamples stream 5 count, v < 5) ∧
      (∀ stream count, ∀ v ∈ xorshiftSamples stream 5 count, v < 5) ∧
      (∀ stream count, ∀ v ∈ xoshiroSamples stream 5 count, v < 5)) :=
  ⟨by decide, samples_in_range 5 (by decide)⟩

/-- C5 counterexample: an SVG-to-PNG rasterization failure makes the
image-writing stage panic (the `.unwrap()` on `svg_to_png`), it is not
surfaced to the caller as an explicit error result as the claim states. -/
theorem raster_failure_panics_cex :
    writeImage (Except.ok ()) (Except.ok "svg") (fun _ => Except.error "raster failure")
      (fun _ => Except.ok ()) = WriteOutcome.panicked ∧
    WriteOutcome.isExplicitError
      (writeImage (Except.ok ()) (Except.ok "svg") (fun _ => Except.error "raster failure")
        (fun _ => Except.ok ())) = false := by decide

/-- C5 amended: in the image-writing stage filesystem errors (file creation
and the final write) propagate to the caller as explicit error results via
`?`, while SVG construction failures and SVG-to-PNG conversion failures
panic via `.unwrap()` instead of propagating. -/
theorem write_image_error_modes (svgRes : Except String String)
    (rasterRes : String → Except String (List Nat))
    (writeRes : List Nat → Except String Unit) :
    (∀ e, writeImage (Except.error e) svgRes rasterRes writeRes = WriteOutcome.errored e) ∧
    (∀ e, writeImage (Except.ok ()) (Except.error e) rasterRes writeRes =
      WriteOutcome.panicked) ∧
    (∀ s e, rasterRes s = Except.error e →
      writeImage (Except.ok ()) (Except.ok s) rasterRes writeRes = WriteOutcome.panicked) ∧
    (∀ s p e, rasterRes s = Except.ok p → writeRes p = Except.error e →
      writeImage (Except.ok ()) (Except.ok s) rasterRes writeRes = WriteOutcome.errored e) := by
  refine ⟨fun e => rfl, fun e => rfl, ?_, ?_⟩
  · intro s e hr
    simp [writeImage, hr]
  · intro s p e hr hw
    simp [writeImage, hr, hw]

/-- Witness for the amended C5: a failed `File::create` surfaces as an
error result, a failed rasterization surfaces as a panic. -/
theorem write_image_error_modes_witness :
    writeImage (Except.error "create failed") (Except.ok "svg") (fun _ => Except.ok [])
      (fun _ => Except.ok ()) = WriteOutcome.errored "create failed" ∧
    writeImage (Except.ok ()) (Except.ok "svg") (fun _ => Except.error "png failed")
      (fun _ => Except.ok ()) = WriteOutcome.panicked :=
  ⟨(write_image_error_modes (Except.ok "svg") (fun _ => Except.ok [])
      (fun _ => Except.ok ())).1 "create failed",
    (write_image_error_modes (Except.ok "svg") (fun _ => Except.error "png failed")
      (fun _ => Except.ok ())).2.2.1 "svg" "png failed" rfl⟩

/-- C8: when the home directory cannot be resolved the driver returns
exactly the one explicit error `"Unable to determine base dirs"` and
performs no pipeline invocation at all (hence generates nothing and writes
zero files); by contrast, whenever the home directory resolves, at least
one pipeline invocation is performed. -/
theorem run_no_base_dirs (pipe : PipelineCall → Except String Unit) :
    runDriver none pipe = (Except.error "Unable to determine base dirs", []) ∧
    ∀ home, (runDriver (some home) pipe).2 ≠ [] := by
  refine ⟨rfl, ?_⟩
  intro home
  cases hseq : pipe PipelineCall.sequence with
  | error e => simp [runDriver, hseq]
  | ok u =>
    cases hstd : pipe PipelineCall.standard with
    | error e => simp [runDriver, hseq, hstd]
    | ok u2 =>
      cases hxor : pipe PipelineCall.xorshift with
      | error e => simp [runDriver, hseq, hstd, hxor]
      | ok u3 =>
        cases hxos : pipe PipelineCall.xoshiro with
        | error e => simp [runDriver, hseq, hstd, hxor, hxos]
        | ok u4 => simp [runDriver, hseq, hstd, hxor, hxos]

end ProceduralFitness
